import Mathlib

set_option linter.unusedSectionVars false

/-!
Shallow embedding of the flexbind pipeline core
(`backend/app/pipeline/{scoring,sequence_design,ensemble,developability}.py`)
and proofs about it.

Conventions of the embedding:
* Python floats are modelled exactly over a `LinearOrderedField K`
  (instantiated at `ℚ` for concrete evaluation, at `ℝ` where the code
  computes genuine irrationals such as square roots).
* `round(x, n)` (Python's banker rounding) is modelled by `roundQ n`,
  round-half-to-even on the field.
* Distance comparisons `dist < c` are modelled by comparing squared
  distances, which is exact for nonnegative radicands.
* NumPy's seeded `default_rng(seed)` is modelled by explicit draw
  streams passed as parameters; a fixed seed corresponds to a fixed
  stream.
-/

section Basics

variable {K : Type} [LinearOrderedField K] [FloorRing K]

/-- A 3-vector of coordinates. -/
structure Vec3 (K : Type) where
  x : K
  y : K
  z : K
deriving DecidableEq, Repr

/-- Pointwise sum of two vectors (used for adding perturbation noise). -/
def vadd (u v : Vec3 K) : Vec3 K := ⟨u.x + v.x, u.y + v.y, u.z + v.z⟩

/-- Scalar multiple of a vector. -/
def vsmul (c : K) (v : Vec3 K) : Vec3 K := ⟨c * v.x, c * v.y, c * v.z⟩

/-- Squared Euclidean distance between two points. -/
def sqDist (u v : Vec3 K) : K :=
  (u.x - v.x) ^ 2 + (u.y - v.y) ^ 2 + (u.z - v.z) ^ 2

/-- `dist u v < c` for the Euclidean distance, expressed on squared
distances: false when `c ≤ 0`, else compares with `c ^ 2`. -/
def distLtB (u v : Vec3 K) (c : K) : Bool :=
  decide (0 < c) && decide (sqDist u v < c ^ 2)

/-- `lo < dist u v ∧ dist u v < hi`, on squared distances. -/
def distInB (u v : Vec3 K) (lo hi : K) : Bool :=
  (decide (lo < 0) || decide (lo ^ 2 < sqDist u v)) && distLtB u v hi

/-- Round-half-to-even to an integer (Python's `round` on a float value,
idealised to exact arithmetic). -/
def roundHalfEven (x : K) : ℤ :=
  let f : ℤ := ⌊x⌋
  let r : K := x - f
  if r < 1 / 2 then f
  else if 1 / 2 < r then f + 1
  else if f % 2 = 0 then f else f + 1

/-- Python's `round(x, n)`: round-half-to-even at `n` decimal places. -/
def roundQ (n : ℕ) (x : K) : K :=
  (roundHalfEven (x * 10 ^ n) : K) / 10 ^ n

theorem roundHalfEven_ge_floor (x : K) : ⌊x⌋ ≤ roundHalfEven x := by
  simp only [roundHalfEven]
  split_ifs <;> omega

theorem le_roundHalfEven_of_le {m : ℤ} {x : K} (h : (m : K) ≤ x) :
    m ≤ roundHalfEven x := by
  have hf : m ≤ ⌊x⌋ := Int.le_floor.mpr h
  exact le_trans hf (roundHalfEven_ge_floor x)

theorem roundHalfEven_le_of_le {m : ℤ} {x : K} (h : x ≤ (m : K)) :
    roundHalfEven x ≤ m := by
  have hfx : (⌊x⌋ : K) ≤ x := Int.floor_le x
  have hfm : ⌊x⌋ ≤ m := by
    have : (⌊x⌋ : K) ≤ (m : K) := le_trans hfx h
    exact_mod_cast this
  have key : ¬ (x - (⌊x⌋ : K) < 1 / 2) → ⌊x⌋ + 1 ≤ m := by
    intro h1
    have hr : (1 : K) / 2 ≤ x - (⌊x⌋ : K) := le_of_not_lt h1
    have hlt : (⌊x⌋ : K) < (m : K) := by linarith
    have : ⌊x⌋ < m := by exact_mod_cast hlt
    omega
  simp only [roundHalfEven]
  split_ifs with h1 h2 h3
  · exact hfm
  · exact key h1
  · exact hfm
  · exact key h1

theorem roundQ_nonneg {x : K} (n : ℕ) (h : 0 ≤ x) : 0 ≤ roundQ n x := by
  unfold roundQ
  have hpow : (0 : K) < 10 ^ n := by positivity
  apply div_nonneg _ hpow.le
  have h0 : ((0 : ℤ) : K) ≤ x * 10 ^ n := by
    push_cast
    exact mul_nonneg h hpow.le
  have := le_roundHalfEven_of_le h0
  exact_mod_cast this

theorem roundQ_le_of_le {x : K} {m : ℤ} (n : ℕ) (h : x ≤ (m : K)) :
    roundQ n x ≤ (m : K) := by
  unfold roundQ
  have hpow : (0 : K) < 10 ^ n := by positivity
  rw [div_le_iff₀ hpow]
  have hx : x * 10 ^ n ≤ ((m * 10 ^ n : ℤ) : K) := by
    push_cast
    exact mul_le_mul_of_nonneg_right h hpow.le
  have := roundHalfEven_le_of_le hx
  calc (roundHalfEven (x * 10 ^ n) : K) ≤ ((m * 10 ^ n : ℤ) : K) := by exact_mod_cast this
    _ = (m : K) * 10 ^ n := by push_cast; ring

theorem le_roundQ_of_le {x : K} {m : ℤ} (n : ℕ) (h : (m : K) ≤ x) :
    (m : K) ≤ roundQ n x := by
  unfold roundQ
  have hpow : (0 : K) < 10 ^ n := by positivity
  rw [le_div_iff₀ hpow]
  have hx : ((m * 10 ^ n : ℤ) : K) ≤ x * 10 ^ n := by
    push_cast
    exact mul_le_mul_of_nonneg_right h hpow.le
  have := le_roundHalfEven_of_le hx
  calc (m : K) * 10 ^ n = ((m * 10 ^ n : ℤ) : K) := by push_cast; ring
    _ ≤ (roundHalfEven (x * 10 ^ n) : K) := by exact_mod_cast this

end Basics

section StructureModel

variable {K : Type} [LinearOrderedField K] [FloorRing K]

/-- One atom: a PDB atom name and a coordinate. -/
structure Atom (K : Type) where
  name : String
  pos : Vec3 K
deriving DecidableEq, Repr

/-- One residue: integer sequence number, 3-letter residue name, atoms. -/
structure Residue (K : Type) where
  resi : ℤ
  resname : String
  atoms : List (Atom K)
deriving DecidableEq, Repr

/-- One chain: chain id and an ordered list of residues. -/
structure Chain (K : Type) where
  id : String
  residues : List (Residue K)
deriving DecidableEq, Repr

/-- A structural model (model 0 of a Bio.PDB `Structure`). -/
structure Struct (K : Type) where
  chains : List (Chain K)
deriving DecidableEq, Repr

/-- A (chain id, residue sequence number) address. -/
abbrev Pos := String × ℤ

/-- `_get_cb_coords` per residue: the CB atom if present, else CA, else none. -/
def residueCB (r : Residue K) : Option (Vec3 K) :=
  match r.atoms.find? (fun a => a.name == "CB") with
  | some a => some a.pos
  | none => (r.atoms.find? (fun a => a.name == "CA")).map Atom.pos

/-- `_get_cb_coords`: Cβ (or Cα fallback) coordinates of every residue,
in chain/residue order. -/
def cbCoords (s : Struct K) : List (Vec3 K) :=
  s.chains.flatMap (fun ch => ch.residues.filterMap residueCB)

/-- `_get_all_coords`: every atom of the model in traversal order. -/
def allAtomsL (s : Struct K) : List (Atom K) :=
  s.chains.flatMap (fun ch => ch.residues.flatMap Residue.atoms)

end StructureModel

section Scoring

variable {K : Type} [LinearOrderedField K] [FloorRing K]

/-- `app.models.StateScore`. -/
structure StateScore (K : Type) where
  state_index : ℤ
  contact_score : K
  clash_score : K
  hbond_proxy : K
  sasa_burial : K
  composite : K
deriving DecidableEq, Repr

/-- The all-zero record returned for degenerate inputs. -/
def zeroStateScore : StateScore K :=
  { state_index := 0, contact_score := 0, clash_score := 0,
    hbond_proxy := 0, sasa_burial := 0, composite := 0 }

/-- Number of (x, y) pairs satisfying `p`. -/
def countPairs (xs ys : List (Vec3 K)) (p : Vec3 K → Vec3 K → Bool) : ℕ :=
  (xs.map (fun x => ys.countP (p x))).sum

/-- `np.linspace(0, n-1, 3000).astype(int)` subsampling applied when a
coordinate list exceeds 3000 entries (floor of the exact linspace values). -/
def subsample3000 (xs : List (Vec3 K)) : List (Vec3 K) :=
  if 3000 < xs.length then
    (List.range 3000).filterMap (fun i => xs.get? (i * (xs.length - 1) / 2999))
  else xs

/-- `score_interface` from `app/pipeline/scoring.py`. -/
def scoreInterface (target binder : Struct K)
    (contactCutoff clashCutoff hbLo hbHi : K) : StateScore K :=
  let tCb := cbCoords target
  let bCb := cbCoords binder
  if tCb.length = 0 ∨ bCb.length = 0 then zeroStateScore
  else
    let contacts := countPairs tCb bCb (fun u v => distLtB u v contactCutoff)
    let contactScore : K := min ((contacts : K) / (max bCb.length 1 : ℕ) * 10) 100
    let tAtoms := allAtomsL target
    let bAtoms := allAtomsL binder
    let tAll := tAtoms.map Atom.pos
    let bAll := bAtoms.map Atom.pos
    let tSub := subsample3000 tAll
    let bSub := subsample3000 bAll
    let clashScore : K :=
      if 0 < tAll.length ∧ 0 < bAll.length then
        max 0 (1 - (countPairs tSub bSub (fun u v => distLtB u v clashCutoff) : K) * (1 / 2))
      else 1
    -- the hydrogen-bond pass zips the (possibly subsampled) coordinate list
    -- against the *unsubsampled* info list, exactly as the source does
    let tDonors := ((tSub.zip (tAtoms.map Atom.name)).filter (fun p => p.2 == "N")).map Prod.fst
    let bAcceptors := ((bSub.zip (bAtoms.map Atom.name)).filter (fun p => p.2 == "O")).map Prod.fst
    let bDonors := ((bSub.zip (bAtoms.map Atom.name)).filter (fun p => p.2 == "N")).map Prod.fst
    let tAcceptors := ((tSub.zip (tAtoms.map Atom.name)).filter (fun p => p.2 == "O")).map Prod.fst
    let hbondCount := countPairs tDonors bAcceptors (fun u v => distInB u v hbLo hbHi)
        + countPairs bDonors tAcceptors (fun u v => distInB u v hbLo hbHi)
    let hbondProxy : K := min ((hbondCount : K) / 5) 10
    let sasaBurial : K :=
      if 0 < tCb.length ∧ 0 < bCb.length then
        ((bCb.countP (fun v => tCb.any (fun u => distLtB u v 10)) : K) / (bCb.length : K)) * 10
      else 0
    let composite := contactScore * (35 / 100) + clashScore * 10 * (20 / 100)
        + hbondProxy * (25 / 100) + sasaBurial * (20 / 100)
    { state_index := 0,
      contact_score := roundQ 2 contactScore,
      clash_score := roundQ 3 clashScore,
      hbond_proxy := roundQ 2 hbondProxy,
      sasa_burial := roundQ 2 sasaBurial,
      composite := roundQ 3 composite }

/-- `score_interface` at its default keyword arguments
(`contact_cutoff=8.0, clash_cutoff=2.0, hbond_dist_range=(2.5, 3.5)`). -/
def scoreInterfaceDefault (target binder : Struct K) : StateScore K :=
  scoreInterface target binder 8 2 (5 / 2) (7 / 2)

end Scoring

section ScoringTheorems

variable {K : Type} [LinearOrderedField K] [FloorRing K]

theorem allAtomsL_ne_nil_of_cbCoords_ne_nil {s : Struct K}
    (h : cbCoords s ≠ []) : allAtomsL s ≠ [] := by
  obtain ⟨v, hv⟩ := List.exists_mem_of_ne_nil _ h
  rw [cbCoords, List.mem_flatMap] at hv
  obtain ⟨ch, hch, hv⟩ := hv
  rw [List.mem_filterMap] at hv
  obtain ⟨r, hr, hres⟩ := hv
  have hatom : ∃ a, a ∈ r.atoms := by
    rw [residueCB] at hres
    cases hfind : r.atoms.find? (fun a => a.name == "CB") with
    | some a => exact ⟨a, List.mem_of_find?_eq_some hfind⟩
    | none =>
      rw [hfind] at hres
      cases hfind2 : r.atoms.find? (fun a => a.name == "CA") with
      | some a => exact ⟨a, List.mem_of_find?_eq_some hfind2⟩
      | none => rw [hfind2] at hres; simp at hres
  obtain ⟨a, ha⟩ := hatom
  apply List.ne_nil_of_mem (a := a)
  rw [allAtomsL, List.mem_flatMap]
  exact ⟨ch, hch, List.mem_flatMap.mpr ⟨r, hr, ha⟩⟩

/-- **C8**: when either structure has no Cβ/Cα-addressable residue,
`score_interface` returns the all-zero `StateScore` record (the function
is total in the embedding, so no exception is raised). -/
theorem c8_scoreInterface_degenerate_zero (target binder : Struct K)
    (cc kc lo hi : K)
    (h : cbCoords target = [] ∨ cbCoords binder = []) :
    scoreInterface target binder cc kc lo hi = zeroStateScore := by
  have hlen : (cbCoords target).length = 0 ∨ (cbCoords binder).length = 0 := by
    rcases h with h | h
    · exact Or.inl (by rw [h]; rfl)
    · exact Or.inr (by rw [h]; rfl)
  simp only [scoreInterface]
  rw [if_pos hlen]

/-- **C8 witness**: a chainless target against a one-residue binder. -/
theorem c8_witness :
    cbCoords (K := ℚ) ⟨[]⟩ = [] ∧
      scoreInterface (K := ℚ) ⟨[]⟩
        ⟨[⟨"A", [⟨1, "ALA", [⟨"CB", ⟨0, 0, 0⟩⟩]⟩]⟩]⟩ 8 2 (5 / 2) (7 / 2) =
          zeroStateScore :=
  ⟨rfl, c8_scoreInterface_degenerate_zero _ _ _ _ _ _ (Or.inl rfl)⟩

/-- Raw (pre-rounding) contact score: inter-structure Cβ contact count,
normalised by the binder residue count, ×10, capped at 100. -/
def contactRaw (target binder : Struct K) (cc : K) : K :=
  min ((countPairs (cbCoords target) (cbCoords binder) (fun u v => distLtB u v cc) : K)
      / ((cbCoords binder).length : K) * 10) 100

/-- Raw clash score: `max(0, 1 − 0.5·clash_count)` over the (subsampled)
all-atom pair count below the clash cutoff. -/
def clashRaw (target binder : Struct K) (kc : K) : K :=
  max 0 (1 - (countPairs (subsample3000 ((allAtomsL target).map Atom.pos))
      (subsample3000 ((allAtomsL binder).map Atom.pos))
      (fun u v => distLtB u v kc) : K) / 2)

/-- Raw hydrogen-bond proxy: backbone N···O pair count in both directions,
divided by 5, capped at 10. -/
def hbondRaw (target binder : Struct K) (lo hi : K) : K :=
  let tAtoms := allAtomsL target
  let bAtoms := allAtomsL binder
  let tSub := subsample3000 (tAtoms.map Atom.pos)
  let bSub := subsample3000 (bAtoms.map Atom.pos)
  let tDonors := ((tSub.zip (tAtoms.map Atom.name)).filter (fun p => p.2 == "N")).map Prod.fst
  let bAcceptors := ((bSub.zip (bAtoms.map Atom.name)).filter (fun p => p.2 == "O")).map Prod.fst
  let bDonors := ((bSub.zip (bAtoms.map Atom.name)).filter (fun p => p.2 == "N")).map Prod.fst
  let tAcceptors := ((tSub.zip (tAtoms.map Atom.name)).filter (fun p => p.2 == "O")).map Prod.fst
  min (((countPairs tDonors bAcceptors (fun u v => distInB u v lo hi)
      + countPairs bDonors tAcceptors (fun u v => distInB u v lo hi) : ℕ) : K) / 5) 10

/-- Raw buried-surface proxy: fraction of binder Cβ atoms with a target Cβ
within 10 Å, ×10. -/
def burialRaw (target binder : Struct K) : K :=
  (((cbCoords binder).countP (fun v => (cbCoords target).any (fun u => distLtB u v 10)) : K)
    / ((cbCoords binder).length : K)) * 10

/-- **C4**: for non-degenerate inputs the `score_interface` record carries
the four raw terms rounded to 2–3 decimals, and its composite equals
`0.35·contact + 2.0·clash + 0.25·hbond + 0.20·burial` (the clash weight
being the code's `10.0 * 0.20`), rounded to 3 decimals. -/
theorem c4_scoreInterface_composite_formula (target binder : Struct K)
    (cc kc lo hi : K)
    (ht : cbCoords target ≠ []) (hb : cbCoords binder ≠ []) :
    scoreInterface target binder cc kc lo hi =
      { state_index := 0,
        contact_score := roundQ 2 (contactRaw target binder cc),
        clash_score := roundQ 3 (clashRaw target binder kc),
        hbond_proxy := roundQ 2 (hbondRaw target binder lo hi),
        sasa_burial := roundQ 2 (burialRaw target binder),
        composite := roundQ 3 ((35 / 100) * contactRaw target binder cc
          + 2 * clashRaw target binder kc
          + (25 / 100) * hbondRaw target binder lo hi
          + (20 / 100) * burialRaw target binder) } := by
  have h4 : 0 < (cbCoords target).length := List.length_pos.mpr ht
  have h5 : 0 < (cbCoords binder).length := List.length_pos.mpr hb
  have h1 : ¬ ((cbCoords target).length = 0 ∨ (cbCoords binder).length = 0) := by
    omega
  have h2 : 0 < (allAtomsL target).length :=
    List.length_pos.mpr (allAtomsL_ne_nil_of_cbCoords_ne_nil ht)
  have h3 : 0 < (allAtomsL binder).length :=
    List.length_pos.mpr (allAtomsL_ne_nil_of_cbCoords_ne_nil hb)
  have h6 : max (cbCoords binder).length 1 = (cbCoords binder).length :=
    Nat.max_eq_left h5
  simp only [scoreInterface, contactRaw, clashRaw, hbondRaw, burialRaw,
    List.length_map]
  rw [if_neg h1, if_pos ⟨h2, h3⟩, if_pos ⟨h4, h5⟩, h6]
  simp only [StateScore.mk.injEq]
  refine ⟨trivial, trivial, ?_, trivial, trivial, ?_⟩
  · congr 1
    ring_nf
  · congr 1
    ring_nf

/-- **C4 witness**: two single-residue structures one Å apart: one contact,
one clash, no backbone N/O atoms, full burial. -/
theorem c4_witness :
    cbCoords (K := ℚ) ⟨[⟨"T", [⟨1, "GLY", [⟨"CA", ⟨0, 0, 0⟩⟩]⟩]⟩]⟩ ≠ [] ∧
      scoreInterface (K := ℚ) ⟨[⟨"T", [⟨1, "GLY", [⟨"CA", ⟨0, 0, 0⟩⟩]⟩]⟩]⟩
        ⟨[⟨"B", [⟨1, "ALA", [⟨"CB", ⟨1, 0, 0⟩⟩]⟩]⟩]⟩ 8 2 (5 / 2) (7 / 2) =
      { state_index := 0,
        contact_score := roundQ 2 (contactRaw (K := ℚ)
          ⟨[⟨"T", [⟨1, "GLY", [⟨"CA", ⟨0, 0, 0⟩⟩]⟩]⟩]⟩
          ⟨[⟨"B", [⟨1, "ALA", [⟨"CB", ⟨1, 0, 0⟩⟩]⟩]⟩]⟩ 8),
        clash_score := roundQ 3 (clashRaw (K := ℚ)
          ⟨[⟨"T", [⟨1, "GLY", [⟨"CA", ⟨0, 0, 0⟩⟩]⟩]⟩]⟩
          ⟨[⟨"B", [⟨1, "ALA", [⟨"CB", ⟨1, 0, 0⟩⟩]⟩]⟩]⟩ 2),
        hbond_proxy := roundQ 2 (hbondRaw (K := ℚ)
          ⟨[⟨"T", [⟨1, "GLY", [⟨"CA", ⟨0, 0, 0⟩⟩]⟩]⟩]⟩
          ⟨[⟨"B", [⟨1, "ALA", [⟨"CB", ⟨1, 0, 0⟩⟩]⟩]⟩]⟩ (5 / 2) (7 / 2)),
        sasa_burial := roundQ 2 (burialRaw (K := ℚ)
          ⟨[⟨"T", [⟨1, "GLY", [⟨"CA", ⟨0, 0, 0⟩⟩]⟩]⟩]⟩
          ⟨[⟨"B", [⟨1, "ALA", [⟨"CB", ⟨1, 0, 0⟩⟩]⟩]⟩]⟩),
        composite := roundQ 3 ((35 / 100) * contactRaw (K := ℚ)
            ⟨[⟨"T", [⟨1, "GLY", [⟨"CA", ⟨0, 0, 0⟩⟩]⟩]⟩]⟩
            ⟨[⟨"B", [⟨1, "ALA", [⟨"CB", ⟨1, 0, 0⟩⟩]⟩]⟩]⟩ 8
          + 2 * clashRaw (K := ℚ)
            ⟨[⟨"T", [⟨1, "GLY", [⟨"CA", ⟨0, 0, 0⟩⟩]⟩]⟩]⟩
            ⟨[⟨"B", [⟨1, "ALA", [⟨"CB", ⟨1, 0, 0⟩⟩]⟩]⟩]⟩ 2
          + (25 / 100) * hbondRaw (K := ℚ)
            ⟨[⟨"T", [⟨1, "GLY", [⟨"CA", ⟨0, 0, 0⟩⟩]⟩]⟩]⟩
            ⟨[⟨"B", [⟨1, "ALA", [⟨"CB", ⟨1, 0, 0⟩⟩]⟩]⟩]⟩ (5 / 2) (7 / 2)
          + (20 / 100) * burialRaw (K := ℚ)
            ⟨[⟨"T", [⟨1, "GLY", [⟨"CA", ⟨0, 0, 0⟩⟩]⟩]⟩]⟩
            ⟨[⟨"B", [⟨1, "ALA", [⟨"CB", ⟨1, 0, 0⟩⟩]⟩]⟩]⟩) } :=
  ⟨by decide, c4_scoreInterface_composite_formula _ _ _ _ _ _ (by decide) (by decide)⟩

end ScoringTheorems

section SequenceDesign

variable {K : Type} [LinearOrderedField K] [FloorRing K]

/-- The Bio.PDB three-letter/one-letter code table for the 20 standard
amino acids. -/
def aaCodeTable : List (String × Char) :=
  [("ALA", 'A'), ("CYS", 'C'), ("ASP", 'D'), ("GLU", 'E'), ("PHE", 'F'),
   ("GLY", 'G'), ("HIS", 'H'), ("ILE", 'I'), ("LYS", 'K'), ("LEU", 'L'),
   ("MET", 'M'), ("ASN", 'N'), ("PRO", 'P'), ("GLN", 'Q'), ("ARG", 'R'),
   ("SER", 'S'), ("THR", 'T'), ("VAL", 'V'), ("TRP", 'W'), ("TYR", 'Y')]

/-- `three_to_one`; `none` models the `KeyError` for a nonstandard name. -/
def threeToOne (resn : String) : Option Char :=
  (aaCodeTable.find? (fun p => p.1 == resn)).map Prod.snd

/-- `one_to_three`, totalised (the code only ever calls it on standard
single-letter codes). -/
def oneToThree (aa : String) : String :=
  ((aaCodeTable.find? (fun p => String.singleton p.2 == aa)).map Prod.fst).getD "UNK"

/-- `_has_glycosylation_motif` scanning on a character list. -/
def hasGlycMotifL : List Char → Bool
  | a :: b :: c :: rest =>
      (a == 'N' && b != 'P' && (c == 'S' || c == 'T')) || hasGlycMotifL (b :: c :: rest)
  | _ => false

/-- `_has_glycosylation_motif`: does the sequence contain N-X-S/T, X ≠ P? -/
def hasGlycosylationMotif (s : String) : Bool := hasGlycMotifL s.toList

/-- `AA_ALPHABET`. -/
def aaAlphabet : List Char := "ACDEFGHIKLMNPQRSTVWY".toList

/-- `COMPATIBLE_GROUPS` in insertion order. -/
def compatibleGroups : List (String × List Char) :=
  [("hydrophobic", "AVILMFYW".toList), ("polar", "STNQ".toList),
   ("charged_pos", "KRH".toList), ("charged_neg", "DE".toList),
   ("special", "CGP".toList)]

/-- `_get_aa_group`. -/
def getAAGroup (aa : String) : String :=
  ((compatibleGroups.find? (fun g => g.2.any (fun m => String.singleton m == aa))).map
    Prod.fst).getD "special"

/-- `_smart_candidates`: same-group substitutions first, then the first 4
cross-group residues, then the allow-list filter. -/
def smartCandidates (cur : String) (allowed : Option (List String)) : List String :=
  let group := getAAGroup cur
  let primary := ((compatibleGroups.find? (fun g => g.1 == group)).map Prod.snd).getD []
  let others := aaAlphabet.filter (fun aa => !primary.contains aa)
  let cands := (primary.filter (fun aa => String.singleton aa != cur)).map String.singleton
      ++ (others.take 4).map String.singleton
  match allowed with
  | none => cands
  | some alw => cands.filter (fun aa => alw.contains aa)

/-- `_extract_interface_sequence` as a character list. -/
def extractSeqL (s : Struct K) (positions : List Pos) : List Char :=
  positions.flatMap (fun p =>
    s.chains.flatMap (fun ch =>
      if ch.id == p.1 then
        match ch.residues.find? (fun r => r.resi == p.2) with
        | some r => [(threeToOne r.resname).getD 'X']
        | none => []
      else []))

/-- `_extract_interface_sequence`. -/
def extractSeq (s : Struct K) (positions : List Pos) : String :=
  ⟨extractSeqL s positions⟩

/-- Rename the first residue with the given sequence number. -/
def setFirstResname (rs : List (Residue K)) (ri : ℤ) (newName : String) :
    List (Residue K) :=
  match rs with
  | [] => []
  | r :: rest =>
      if r.resi == ri then { r with resname := newName } :: rest
      else r :: setFirstResname rest ri newName

/-- `_apply_mutation`: label substitution on every chain with the given id
(coordinates untouched). -/
def applyMutation (s : Struct K) (cid : String) (ri : ℤ) (aa : String) : Struct K :=
  ⟨s.chains.map (fun ch =>
    if ch.id == cid then { ch with residues := setFirstResname ch.residues ri (oneToThree aa) }
    else ch)⟩

/-- A mutation entry `(chain_id, resi, new_aa)`. -/
abbrev Mut := String × ℤ × String

/-- Left fold of `_apply_mutation` over a mutation list. -/
def applyMutations (s : Struct K) (muts : List Mut) : Struct K :=
  muts.foldl (fun st m => applyMutation st m.1 m.2.1 m.2.2) s

/-- `np.min` of a composite list (the code never reaches this on an empty
list without raising, so the empty case carries a junk value). -/
def listMin (l : List K) : K :=
  match l with
  | [] => 0
  | c :: cs => cs.foldl min c

/-- `np.mean` (empty case is junk, see `listMin`). -/
def meanL (l : List K) : K := l.sum / l.length

/-- `_score_design_multistate`: returns (mean, worst, per-state scores),
scoring the mutated copy of every ensemble state against the target with
the scorer's default cutoffs. -/
def scoreDesignMultistate (target : Struct K) (ensemble : List (Struct K))
    (muts : List Mut) : K × K × List (StateScore K) :=
  let perState := ((List.range ensemble.length).zip ensemble).map (fun p =>
    { scoreInterfaceDefault target (applyMutations p.2 muts) with state_index := (p.1 : ℤ) })
  let composites := perState.map StateScore.composite
  (meanL composites, listMin composites, perState)

/-- One returned design dict. -/
structure DesignRec (K : Type) where
  sequence : String
  mutations : String
  mean_score : K
  worst_score : K
  robustness : K
  per_state_scores : List (StateScore K)
deriving DecidableEq, Repr

/-- The human-readable mutation string. -/
def mutStr (muts : List Mut) : String :=
  if muts.isEmpty then "wildtype"
  else String.intercalate ", " (muts.map (fun m => m.1 ++ toString m.2.1 ++ m.2.2))

/-- Assemble one design dict from a mutation set (scores rounded to 3
decimals, robustness = 0.6·worst + 0.4·mean). -/
def mkDesignRec (target binder : Struct K) (ensemble : List (Struct K))
    (designable : List Pos) (muts : List Mut) : DesignRec K :=
  let ms := scoreDesignMultistate target ensemble muts
  { sequence := extractSeq (applyMutations binder muts) designable,
    mutations := mutStr muts,
    mean_score := roundQ 3 ms.1,
    worst_score := roundQ 3 ms.2.1,
    robustness := roundQ 3 (ms.2.1 * (6 / 10) + ms.1 * (4 / 10)),
    per_state_scores := ms.2.2 }

/-- The expansion of every beam entry by every candidate amino acid at one
position, each scored across the whole ensemble (the inner double loop of
the beam search). -/
def expandCandidates (target : Struct K) (ensemble : List (Struct K)) (pos : Pos)
    (cur : String) (cands : List String) (beam : List (List Mut × K)) :
    List (List Mut × K) :=
  beam.flatMap (fun bs => cands.map (fun aa =>
    let nm := if aa == cur then bs.1 else bs.1 ++ [(pos.1, pos.2, aa)]
    let ms := scoreDesignMultistate target ensemble nm
    (nm, ms.2.1 * (6 / 10) + ms.1 * (4 / 10))))

/-- Python's stable `list.sort(key=…, reverse=True)`: a stable sort that is
descending in the key (insertion sort is extensionally identical to any
stable sort for the same total preorder). -/
def sortDescBy {α : Type} (key : α → K) (l : List α) : List α :=
  l.insertionSort (fun a b => key b ≤ key a)

/-- The candidate list `design_sequences` actually uses at one position:
wild type first, then the first **5** entries of `_smart_candidates`. -/
def codePositionCandidates (cur : String) (allowed : Option (List String)) :
    List String :=
  cur :: (smartCandidates cur allowed).take 5

/-- Modelled from the spec's words (for refinement comparison with
`codePositionCandidates`): "expand every beam state by every admissible
amino acid — all same-group substitutions first, followed by a small fixed
number of cross-group substitutions, restricted by the per-position
allow-list, wild type always included". -/
def specPositionCandidates (cur : String) (allowed : Option (List String)) :
    List String :=
  cur :: smartCandidates cur allowed

/-- One position step of the beam search. -/
def beamStep (target binder : Struct K) (ensemble : List (Struct K))
    (allowed : Pos → Option (List String)) (beamWidth : ℕ)
    (beam : List (List Mut × K)) (pos : Pos) : List (List Mut × K) :=
  let cur := extractSeq binder [pos]
  if cur.length = 0 || cur == "X" then beam
  else
    (sortDescBy Prod.snd
      (expandCandidates target ensemble pos cur
        (codePositionCandidates cur (allowed pos)) beam)).take beamWidth

/-- Append a design unless it is filtered out (glycosylation motif when the
flag is on, or an already-seen designable-position sequence). -/
def addFiltered (noGlyc : Bool) (acc : List (DesignRec K) × List String)
    (r : DesignRec K) : List (DesignRec K) × List String :=
  if noGlyc && hasGlycosylationMotif r.sequence then acc
  else if acc.2.contains r.sequence then acc
  else (acc.1 ++ [r], acc.2 ++ [r.sequence])

/-- Expansion of the surviving beam into filtered design dicts. -/
def collectBeamResults (target binder : Struct K) (ensemble : List (Struct K))
    (designable : List Pos) (noGlyc : Bool) (beam : List (List Mut × K)) :
    List (DesignRec K) × List String :=
  beam.foldl (fun acc bs =>
    addFiltered noGlyc acc (mkDesignRec target binder ensemble designable bs.1)) ([], [])

/-- One pass over the (capped) mutable positions drawing random mutations:
each valid position consumes one uniform draw; on a draw < 0.4 and a
nonempty candidate list a choice draw selects the amino acid. -/
def drawMutations (binder : Struct K) (allowed : Pos → Option (List String))
    (gU : ℕ → K) (gC : ℕ → ℕ) (positions : List Pos) (k : ℕ) : List Mut × ℕ :=
  positions.foldl (fun (acc : List Mut × ℕ) p =>
    let cur := extractSeq binder [p]
    if cur.length = 0 || cur == "X" then acc
    else if gU acc.2 < 4 / 10 then
      let cands := smartCandidates cur (allowed p)
      if cands.isEmpty then (acc.1, acc.2 + 1)
      else (acc.1 ++ [(p.1, p.2, cands.getD (gC (acc.2 + 1) % cands.length) "A")], acc.2 + 2)
    else (acc.1, acc.2 + 1)) ([], k)

/-- One iteration of the random diversification loop. -/
def diversifyStep (target binder : Struct K) (ensemble : List (Struct K))
    (designable : List Pos) (noGlyc : Bool) (allowed : Pos → Option (List String))
    (gU : ℕ → K) (gC : ℕ → ℕ) (mutable8 : List Pos)
    (st : List (DesignRec K) × List String × ℕ) :
    List (DesignRec K) × List String × ℕ :=
  let dm := drawMutations binder allowed gU gC mutable8 st.2.2
  if dm.1.isEmpty then (st.1, st.2.1, dm.2)
  else
    let acc2 := addFiltered noGlyc (st.1, st.2.1)
      (mkDesignRec target binder ensemble designable dm.1)
    (acc2.1, acc2.2, dm.2)

/-- The whole diversification pass (`min(n_candidates, 20)` iterations). -/
def diversifyLoop (target binder : Struct K) (ensemble : List (Struct K))
    (designable : List Pos) (noGlyc : Bool) (allowed : Pos → Option (List String))
    (gU : ℕ → K) (gC : ℕ → ℕ) (mutable8 : List Pos) (iters : ℕ)
    (st : List (DesignRec K) × List String × ℕ) :
    List (DesignRec K) × List String × ℕ :=
  (List.range iters).foldl (fun st _ =>
    diversifyStep target binder ensemble designable noGlyc allowed gU gC mutable8 st) st

/-- `design_sequences` from `app/pipeline/sequence_design.py`. -/
def designSequences (target binder : Struct K) (ensemble : List (Struct K))
    (designable : List Pos) (nCandidates beamWidth : ℕ)
    (fixed : List Pos) (allowed : Pos → Option (List String)) (noGlyc : Bool)
    (gU : ℕ → K) (gC : ℕ → ℕ) : List (DesignRec K) :=
  let mutablePos := designable.filter (fun p => !fixed.contains p)
  if mutablePos.isEmpty then
    [mkDesignRec target binder ensemble designable []]
  else
    let beam := (mutablePos.take 8).foldl
      (beamStep target binder ensemble allowed beamWidth) [([], 0)]
    let acc1 := collectBeamResults target binder ensemble designable noGlyc beam
    let st := diversifyLoop target binder ensemble designable noGlyc allowed gU gC
      (mutablePos.take 8) (min nCandidates 20) (acc1.1, acc1.2, 0)
    (sortDescBy DesignRec.robustness st.1).take nCandidates

end SequenceDesign

section SequenceDesignTheorems

variable {K : Type} [LinearOrderedField K] [FloorRing K]

theorem sortDescBy_pairwise {α : Type} (key : α → K) (l : List α) :
    (sortDescBy key l).Pairwise (fun a b => key b ≤ key a) := by
  have ht : IsTotal α (fun a b => key b ≤ key a) := ⟨fun a b => le_total (key b) (key a)⟩
  have htr : IsTrans α (fun a b => key b ≤ key a) := ⟨fun a b c h1 h2 => le_trans h2 h1⟩
  exact List.sorted_insertionSort _ l

theorem sortDescBy_perm {α : Type} (key : α → K) (l : List α) :
    (sortDescBy key l).Perm l :=
  List.perm_insertionSort _ l

/-- **C1 (amended)**: the list returned by `design_sequences` is sorted by
the stored robustness in descending order (stable sort), and its length is
at most `max n_candidates 1` — the one-candidate excess over `n_candidates`
occurs exactly in the no-mutable-position wild-type branch. -/
theorem c1_design_sorted_and_truncated (target binder : Struct K)
    (ensemble : List (Struct K)) (designable : List Pos) (nCandidates beamWidth : ℕ)
    (fixed : List Pos) (allowed : Pos → Option (List String)) (noGlyc : Bool)
    (gU : ℕ → K) (gC : ℕ → ℕ) :
    (designSequences target binder ensemble designable nCandidates beamWidth fixed
        allowed noGlyc gU gC).Pairwise (fun a b => b.robustness ≤ a.robustness) ∧
    (designSequences target binder ensemble designable nCandidates beamWidth fixed
        allowed noGlyc gU gC).length ≤ max nCandidates 1 := by
  simp only [designSequences]
  split
  · exact ⟨List.pairwise_singleton _ _, by simpa using Nat.le_max_right nCandidates 1⟩
  · constructor
    · exact List.Pairwise.sublist (List.take_sublist _ _) (sortDescBy_pairwise _ _)
    · calc (List.take nCandidates _).length ≤ nCandidates := by
            rw [List.length_take]; exact Nat.min_le_left _ _
        _ ≤ max nCandidates 1 := le_max_left _ _

/-- **C1 counterexample**: with `n_candidates = 0` and every designable
position fixed, `design_sequences` still returns one wild-type candidate,
so the returned length exceeds `n_candidates`. -/
theorem c1_counterexample :
    ¬ ((designSequences (K := ℚ) ⟨[]⟩ ⟨[⟨"A", [⟨1, "ALA", []⟩]⟩]⟩
        [⟨[⟨"A", [⟨1, "ALA", []⟩]⟩]⟩] [("A", 1)] 0 3 [("A", 1)]
        (fun _ => none) true (fun _ => 0) (fun _ => 0)).length ≤ 0) := by
  decide

theorem addFiltered_motif_free (acc : List (DesignRec K) × List String) (r : DesignRec K)
    (h : ∀ x ∈ acc.1, hasGlycosylationMotif x.sequence = false) :
    ∀ x ∈ (addFiltered true acc r).1, hasGlycosylationMotif x.sequence = false := by
  intro x hx
  unfold addFiltered at hx
  by_cases hg : hasGlycosylationMotif r.sequence = true
  · rw [if_pos (by simp [hg])] at hx
    exact h x hx
  · have hg2 : hasGlycosylationMotif r.sequence = false := by simpa using hg
    rw [if_neg (by simp [hg2])] at hx
    by_cases hs : acc.2.contains r.sequence = true
    · rw [if_pos hs] at hx
      exact h x hx
    · rw [if_neg hs] at hx
      rcases List.mem_append.mp hx with hx | hx
      · exact h x hx
      · rcases List.mem_singleton.mp hx with rfl
        exact hg2

theorem collectBeamResults_motif_free (target binder : Struct K)
    (ensemble : List (Struct K)) (designable : List Pos) (beam : List (List Mut × K)) :
    ∀ x ∈ (collectBeamResults target binder ensemble designable true beam).1,
      hasGlycosylationMotif x.sequence = false := by
  unfold collectBeamResults
  suffices h : ∀ (acc : List (DesignRec K) × List String),
      (∀ x ∈ acc.1, hasGlycosylationMotif x.sequence = false) →
      ∀ x ∈ (beam.foldl (fun acc bs =>
        addFiltered true acc (mkDesignRec target binder ensemble designable bs.1)) acc).1,
        hasGlycosylationMotif x.sequence = false by
    exact h ([], []) (by simp)
  induction beam with
  | nil => intro acc hacc; simpa using hacc
  | cons b bs ih =>
      intro acc hacc
      simp only [List.foldl_cons]
      exact ih _ (addFiltered_motif_free _ _ hacc)

theorem diversifyStep_motif_free (target binder : Struct K) (ensemble : List (Struct K))
    (designable : List Pos) (allowed : Pos → Option (List String))
    (gU : ℕ → K) (gC : ℕ → ℕ) (mutable8 : List Pos)
    (st : List (DesignRec K) × List String × ℕ)
    (h : ∀ x ∈ st.1, hasGlycosylationMotif x.sequence = false) :
    ∀ x ∈ (diversifyStep target binder ensemble designable true allowed gU gC
        mutable8 st).1, hasGlycosylationMotif x.sequence = false := by
  simp only [diversifyStep]
  split
  · exact h
  · intro x hx
    exact addFiltered_motif_free (st.1, st.2.1) _ h x hx

theorem diversifyLoop_motif_free (target binder : Struct K) (ensemble : List (Struct K))
    (designable : List Pos) (allowed : Pos → Option (List String))
    (gU : ℕ → K) (gC : ℕ → ℕ) (mutable8 : List Pos) (iters : ℕ)
    (st : List (DesignRec K) × List String × ℕ)
    (h : ∀ x ∈ st.1, hasGlycosylationMotif x.sequence = false) :
    ∀ x ∈ (diversifyLoop target binder ensemble designable true allowed gU gC
        mutable8 iters st).1, hasGlycosylationMotif x.sequence = false := by
  unfold diversifyLoop
  generalize List.range iters = l
  induction l generalizing st with
  | nil => simpa using h
  | cons a l ih =>
      simp only [List.foldl_cons]
      exact ih _ (diversifyStep_motif_free target binder ensemble designable allowed
        gU gC mutable8 st h)

/-- **C2 (amended)**: provided at least one designable position is not
fixed, every design returned by `design_sequences` with the
glycosylation-forbid flag set has a designable-position sequence free of
the N-X-S/T (X ≠ P) motif. -/
theorem c2_no_glycosylation_motif (target binder : Struct K) (ensemble : List (Struct K))
    (designable : List Pos) (nCandidates beamWidth : ℕ) (fixed : List Pos)
    (allowed : Pos → Option (List String)) (gU : ℕ → K) (gC : ℕ → ℕ)
    (hmut : designable.filter (fun p => !fixed.contains p) ≠ []) :
    ∀ r ∈ designSequences target binder ensemble designable nCandidates beamWidth fixed
        allowed true gU gC, hasGlycosylationMotif r.sequence = false := by
  intro r hr
  simp only [designSequences] at hr
  rw [if_neg (by simpa using hmut)] at hr
  have hr2 := List.take_subset _ _ hr
  have hr3 := (sortDescBy_perm (DesignRec.robustness (K := K)) _).mem_iff.mp hr2
  exact diversifyLoop_motif_free target binder ensemble designable allowed gU gC _ _ _
    (collectBeamResults_motif_free target binder ensemble designable _) r hr3

unseal Rat.inv Rat.mul Rat.add Rat.sub in
/-- **C2 witness**: a one-position design run whose head candidate is
motif-free. -/
theorem c2_witness :
    ([(("A" : String), (1 : ℤ))].filter
        (fun p => !([] : List Pos).contains p) ≠ []) ∧
    hasGlycosylationMotif
      ((designSequences (K := ℚ) ⟨[]⟩ ⟨[⟨"A", [⟨1, "ALA", []⟩]⟩]⟩
          [⟨[⟨"A", [⟨1, "ALA", []⟩]⟩]⟩] [("A", 1)] 1 1 []
          (fun _ => none) true (fun _ => 1) (fun _ => 0)).headD
        (mkDesignRec ⟨[]⟩ ⟨[⟨"A", [⟨1, "ALA", []⟩]⟩]⟩ [] [] [])).sequence = false :=
  ⟨by decide,
    c2_no_glycosylation_motif ⟨[]⟩ ⟨[⟨"A", [⟨1, "ALA", []⟩]⟩]⟩
      [⟨[⟨"A", [⟨1, "ALA", []⟩]⟩]⟩] [("A", 1)] 1 1 [] (fun _ => none)
      (fun _ => 1) (fun _ => 0) (by decide) _ (by decide)⟩

/-- **C2 counterexample**: with every designable position fixed, the
wild-type fallback bypasses the glycosylation filter, so a binder whose
designable positions read "NFS" is returned with the motif present even
though the flag is on. -/
theorem c2_counterexample :
    ∃ r ∈ designSequences (K := ℚ) ⟨[]⟩
        ⟨[⟨"A", [⟨1, "ASN", []⟩, ⟨2, "PHE", []⟩, ⟨3, "SER", []⟩]⟩]⟩
        [⟨[⟨"A", [⟨1, "ASN", []⟩, ⟨2, "PHE", []⟩, ⟨3, "SER", []⟩]⟩]⟩]
        [("A", 1), ("A", 2), ("A", 3)] 10 3 [("A", 1), ("A", 2), ("A", 3)]
        (fun _ => none) true (fun _ => 0) (fun _ => 0),
      hasGlycosylationMotif r.sequence = true := by
  decide

end SequenceDesignTheorems

section BeamExpansion

variable {K : Type} [LinearOrderedField K] [FloorRing K]

theorem map_snd_zip_of_le {α β γ : Type} (f : β → γ) :
    ∀ (l : List β) (ns : List α), l.length ≤ ns.length →
      ((ns.zip l).map (fun p => f p.2)) = l.map f
  | [], ns, _ => by cases ns <;> simp
  | b :: l, [], h => by simp at h
  | b :: l, a :: ns, h => by
      simp only [List.zip_cons_cons, List.map_cons]
      rw [map_snd_zip_of_le f l ns (by simpa using h)]

theorem map_composite_perState (target : Struct K) (ensemble : List (Struct K))
    (muts : List Mut) :
    (scoreDesignMultistate target ensemble muts).2.2.map StateScore.composite =
      ensemble.map (fun st =>
        (scoreInterfaceDefault target (applyMutations st muts)).composite) := by
  simp only [scoreDesignMultistate]
  rw [List.map_map]
  dsimp only [Function.comp_def]
  exact map_snd_zip_of_le
    (fun st => (scoreInterfaceDefault target (applyMutations st muts)).composite)
    ensemble (List.range ensemble.length) (by simp)

theorem robustness_formula (target : Struct K) (ensemble : List (Struct K))
    (muts : List Mut) :
    (scoreDesignMultistate target ensemble muts).2.1 * (6 / 10)
        + (scoreDesignMultistate target ensemble muts).1 * (4 / 10) =
      (6 / 10) * listMin (ensemble.map (fun st =>
          (scoreInterfaceDefault target (applyMutations st muts)).composite))
        + (4 / 10) * meanL (ensemble.map (fun st =>
          (scoreInterfaceDefault target (applyMutations st muts)).composite)) := by
  rw [← map_composite_perState target ensemble muts]
  simp only [scoreDesignMultistate]
  ring

/-- **C5 (amended)**: at a valid position the beam step expands every beam
state by the wild type plus the first **5** entries of `_smart_candidates`
(not the full admissible list the spec describes), scoring each expansion
across every ensemble state with robustness
`0.6·min(per-state composite) + 0.4·mean(per-state composite)`. -/
theorem c5_beam_expansion (target binder : Struct K) (ensemble : List (Struct K))
    (pos : Pos) (allowedF : Pos → Option (List String)) (beamWidth : ℕ)
    (beam : List (List Mut × K)) (cur : String)
    (hcur : extractSeq binder [pos] = cur)
    (hvalid : (cur.length = 0 || cur == "X") = false) :
    (beamStep target binder ensemble allowedF beamWidth beam pos =
      (sortDescBy Prod.snd (expandCandidates target ensemble pos cur
        (codePositionCandidates cur (allowedF pos)) beam)).take beamWidth) ∧
    (∀ e ∈ expandCandidates target ensemble pos cur
        (codePositionCandidates cur (allowedF pos)) beam,
      ∃ bs ∈ beam, ∃ aa ∈ codePositionCandidates cur (allowedF pos),
        e.1 = (if aa == cur then bs.1 else bs.1 ++ [(pos.1, pos.2, aa)]) ∧
        e.2 = (6 / 10) * listMin (ensemble.map (fun st =>
                (scoreInterfaceDefault target (applyMutations st e.1)).composite))
            + (4 / 10) * meanL (ensemble.map (fun st =>
                (scoreInterfaceDefault target (applyMutations st e.1)).composite))) ∧
    (∀ bs ∈ beam, ∀ aa ∈ codePositionCandidates cur (allowedF pos),
      ((if aa == cur then bs.1 else bs.1 ++ [(pos.1, pos.2, aa)]),
        (6 / 10) * listMin (ensemble.map (fun st =>
            (scoreInterfaceDefault target (applyMutations st
              (if aa == cur then bs.1 else bs.1 ++ [(pos.1, pos.2, aa)]))).composite))
          + (4 / 10) * meanL (ensemble.map (fun st =>
            (scoreInterfaceDefault target (applyMutations st
              (if aa == cur then bs.1 else bs.1 ++ [(pos.1, pos.2, aa)]))).composite))) ∈
        expandCandidates target ensemble pos cur
          (codePositionCandidates cur (allowedF pos)) beam) := by
  refine ⟨?_, ?_, ?_⟩
  · simp only [beamStep, hcur, hvalid]
    rfl
  · intro e he
    simp only [expandCandidates, List.mem_flatMap, List.mem_map] at he
    obtain ⟨bs, hbs, aa, haa, hval⟩ := he
    refine ⟨bs, hbs, aa, haa, ?_, ?_⟩
    · rw [← hval]
    · rw [← hval]
      exact robustness_formula target ensemble _
  · intro bs hbs aa haa
    simp only [expandCandidates, List.mem_flatMap, List.mem_map]
    refine ⟨bs, hbs, aa, haa, ?_⟩
    exact Prod.ext rfl (robustness_formula target ensemble _)

/-- **C5 counterexample**: for a hydrophobic wild type (Ala) with no
allow-list, the candidate list the code uses is capped to 5 mutations —
tyrosine is admissible per the spec's description (same hydrophobic group)
but is never tried. -/
theorem c5_counterexample :
    codePositionCandidates "A" none ≠ specPositionCandidates "A" none ∧
      "Y" ∈ specPositionCandidates "A" none ∧
      "Y" ∉ codePositionCandidates "A" none ∧
      (specPositionCandidates "A" none).length = 12 ∧
      (codePositionCandidates "A" none).length = 6 := by
  decide

unseal Rat.inv Rat.mul Rat.add Rat.sub in
/-- **C5 witness**: the beam-step characterisation instantiated at a
concrete one-state, one-entry beam. -/
theorem c5_witness :
    (extractSeq (K := ℚ) ⟨[⟨"A", [⟨1, "ALA", []⟩]⟩]⟩ [("A", 1)] = "A") ∧
    (beamStep (K := ℚ) ⟨[]⟩ ⟨[⟨"A", [⟨1, "ALA", []⟩]⟩]⟩ [⟨[⟨"A", [⟨1, "ALA", []⟩]⟩]⟩]
        (fun _ => none) 3 [([], 0)] ("A", 1) =
      (sortDescBy Prod.snd (expandCandidates (K := ℚ) ⟨[]⟩ [⟨[⟨"A", [⟨1, "ALA", []⟩]⟩]⟩]
        ("A", 1) "A" (codePositionCandidates "A" none) [([], 0)])).take 3) ∧
    (∀ e ∈ expandCandidates (K := ℚ) ⟨[]⟩ [⟨[⟨"A", [⟨1, "ALA", []⟩]⟩]⟩]
        ("A", 1) "A" (codePositionCandidates "A" none) [([], 0)],
      ∃ bs ∈ [(([] : List Mut), (0 : ℚ))], ∃ aa ∈ codePositionCandidates "A" none,
        e.1 = (if aa == "A" then bs.1 else bs.1 ++ [("A", 1, aa)]) ∧
        e.2 = (6 / 10) * listMin ([⟨[⟨"A", [⟨1, "ALA", []⟩]⟩]⟩].map (fun st =>
                (scoreInterfaceDefault (K := ℚ) ⟨[]⟩ (applyMutations st e.1)).composite))
            + (4 / 10) * meanL ([⟨[⟨"A", [⟨1, "ALA", []⟩]⟩]⟩].map (fun st =>
                (scoreInterfaceDefault (K := ℚ) ⟨[]⟩ (applyMutations st e.1)).composite))) := by
  have h := c5_beam_expansion (K := ℚ) ⟨[]⟩ ⟨[⟨"A", [⟨1, "ALA", []⟩]⟩]⟩
    [⟨[⟨"A", [⟨1, "ALA", []⟩]⟩]⟩] ("A", 1) (fun _ => none) 3 [([], 0)] "A"
    (by decide) (by decide)
  exact ⟨by decide, h.1, h.2.1⟩

end BeamExpansion

section Ensemble

variable {K : Type} [LinearOrderedField K] [FloorRing K]

/-- `BACKBONE_ATOMS`. -/
def backboneNames : List String := ["N", "CA", "C", "O"]

/-- `_get_flexible_atoms` (coordinates only, traversal order). -/
def flexAtoms (s : Struct K) (flex : List Pos) : List (Vec3 K) :=
  s.chains.flatMap (fun ch =>
    ch.residues.flatMap (fun r =>
      if flex.contains (ch.id, r.resi) then
        (r.atoms.filter (fun a => backboneNames.contains a.name)).map Atom.pos
      else []))

/-- Gaussian perturbation of the backbone atoms of one residue's atom list,
consuming one 3-vector draw per backbone atom (`rng.normal(0, magnitude, 3)`
modelled as `magnitude •` a unit draw). -/
def perturbAtomsR (gN : ℕ → Vec3 K) (mag : K) :
    List (Atom K) → ℕ → List (Atom K) × ℕ
  | [], k => ([], k)
  | a :: rest, k =>
      if backboneNames.contains a.name then
        let res := perturbAtomsR gN mag rest (k + 1)
        ({ a with pos := vadd a.pos (vsmul mag (gN k)) } :: res.1, res.2)
      else
        let res := perturbAtomsR gN mag rest k
        (a :: res.1, res.2)

/-- Perturbation over a chain's residues (flexible residues only). -/
def perturbResidues (flex : List Pos) (cid : String) (gN : ℕ → Vec3 K) (mag : K) :
    List (Residue K) → ℕ → List (Residue K) × ℕ
  | [], k => ([], k)
  | r :: rest, k =>
      if flex.contains (cid, r.resi) then
        let pa := perturbAtomsR gN mag r.atoms k
        let res := perturbResidues flex cid gN mag rest pa.2
        ({ r with atoms := pa.1 } :: res.1, res.2)
      else
        let res := perturbResidues flex cid gN mag rest k
        (r :: res.1, res.2)

/-- `_perturb_structure` with an explicit draw counter. -/
def perturbStructure (s : Struct K) (flex : List Pos) (gN : ℕ → Vec3 K) (mag : K)
    (k : ℕ) : Struct K × ℕ :=
  let res := s.chains.foldl (fun (acc : List (Chain K) × ℕ) ch =>
    let pr := perturbResidues flex ch.id gN mag ch.residues acc.2
    (acc.1 ++ [{ ch with residues := pr.1 }], pr.2)) ([], k)
  (⟨res.1⟩, res.2)

/-- Componentwise mean of a point list (`np.mean(…, axis=0)`). -/
def centroidOf (l : List (Vec3 K)) : Vec3 K :=
  ⟨(l.map Vec3.x).sum / l.length, (l.map Vec3.y).sum / l.length,
   (l.map Vec3.z).sum / l.length⟩

/-- Replace the position of the first atom with the given name. -/
def setAtomPos (atoms : List (Atom K)) (nm : String) (v : Vec3 K) : List (Atom K) :=
  match atoms with
  | [] => []
  | a :: rest =>
      if a.name == nm then { a with pos := v } :: rest
      else a :: setAtomPos rest nm v

/-- One in-chain sweep of `_harmonic_relax`: each flexible CA is pulled 30%
of the way toward the centroid of its own N/C atoms and the previous
residue's (already relaxed) CA. -/
def relaxResidues (flex : List Pos) (cid : String) :
    List (Residue K) → Option (Vec3 K) → List (Residue K)
  | [], _ => []
  | r :: rest, prevCa =>
      match (r.atoms.find? (fun a => a.name == "CA")).map Atom.pos with
      | none => r :: relaxResidues flex cid rest none
      | some ca =>
          if flex.contains (cid, r.resi) then
            let neighbours := (["N", "C"].filterMap (fun nm =>
                (r.atoms.find? (fun a => a.name == nm)).map Atom.pos))
              ++ (match prevCa with | some v => [v] | none => [])
            if neighbours.isEmpty then
              r :: relaxResidues flex cid rest (some ca)
            else
              let newCa := vadd (vsmul (7 / 10) ca) (vsmul (3 / 10) (centroidOf neighbours))
              { r with atoms := setAtomPos r.atoms "CA" newCa } ::
                relaxResidues flex cid rest (some newCa)
          else r :: relaxResidues flex cid rest (some ca)

/-- One full sweep of `_harmonic_relax` (prev-CA resets at each chain). -/
def relaxOnce (flex : List Pos) (s : Struct K) : Struct K :=
  ⟨s.chains.map (fun ch => { ch with residues := relaxResidues flex ch.id ch.residues none })⟩

/-- `_harmonic_relax` with the given iteration count. -/
def harmonicRelax (s : Struct K) (flex : List Pos) (iters : ℕ) : Struct K :=
  Nat.iterate (relaxOnce flex) iters s

/-- The raw sample list: the unperturbed binder followed by `n_samples − 1`
perturb-and-relax samples drawn from the seeded stream. -/
def mkSamplesAux (binder : Struct K) (flex : List Pos) (gN : ℕ → Vec3 K) (mag : K) :
    ℕ → ℕ → List (Struct K)
  | 0, _ => []
  | n + 1, k =>
      let ps := perturbStructure binder flex gN mag k
      harmonicRelax ps.1 flex 40 :: mkSamplesAux binder flex gN mag n ps.2

/-- The sample list of `generate_ensemble` (original binder first). -/
def mkSamples (binder : Struct K) (flex : List Pos) (gN : ℕ → Vec3 K) (mag : K)
    (nSamples : ℕ) : List (Struct K) :=
  binder :: mkSamplesAux binder flex gN mag (nSamples - 1) 0

/-- The branch test of `_rmsd_between`: coordinate lists of unequal length,
or no flexible atoms at all. -/
def rmsdSentinelCond (s1 s2 : Struct K) (flex : List Pos) : Bool :=
  ((flexAtoms s1 flex).length != (flexAtoms s2 flex).length)
    || ((flexAtoms s1 flex).length == 0)

/-- The mean squared deviation over flexible backbone atoms. -/
def msdFlex (s1 s2 : Struct K) (flex : List Pos) : K :=
  (((flexAtoms s1 flex).zip (flexAtoms s2 flex)).map (fun p => sqDist p.1 p.2)).sum
    / ((flexAtoms s1 flex).length : K)

/-- `_rmsd_between`: the sentinel 999.0, else the flexible-backbone RMSD
(the square root is the one irrational step, passed in as `sqrtK`;
the faithful instantiation is `K = ℝ`, `sqrtK = Real.sqrt`). -/
def rmsdBetween (sqrtK : K → K) (s1 s2 : Struct K) (flex : List Pos) : K :=
  if rmsdSentinelCond s1 s2 flex then 999 else sqrtK (msdFlex s1 s2 flex)

/-- An entry of the symmetric `squareform` RMSD matrix. -/
def distMat (sqrtK : K → K) (samples : List (Struct K)) (flex : List Pos)
    (i j : ℕ) : K :=
  if i = j then 0
  else rmsdBetween sqrtK (samples.getD i ⟨[]⟩) (samples.getD j ⟨[]⟩) flex

/-- `labels.max()` over the first `n` samples. -/
def maxLabel (labels : ℕ → ℕ) (n : ℕ) : ℕ :=
  ((List.range n).map labels).foldr max 0

/-- `np.where(labels == cid)[0]`. -/
def clusterMembers (labels : ℕ → ℕ) (n cid : ℕ) : List ℕ :=
  (List.range n).filter (fun i => labels i == cid)

/-- `np.argmin` over `f 0, …, f (n−1)` (first minimiser). -/
def argminIdx (f : ℕ → K) (n : ℕ) : ℕ :=
  (List.range n).foldl (fun best i => if f i < f best then i else best) 0

/-- The medoid of one cluster: its single member, or the member minimising
the mean distance to the cluster's members. -/
def medoidOf (sqrtK : K → K) (samples : List (Struct K)) (flex : List Pos)
    (labels : ℕ → ℕ) (n cid : ℕ) : Struct K :=
  let members := clusterMembers labels n cid
  if members.length = 1 then samples.getD (members.getD 0 0) ⟨[]⟩
  else
    let meanDist := fun (a : ℕ) =>
      (members.map (fun b => distMat sqrtK samples flex (members.getD a 0) b)).sum
        / (members.length : K)
    samples.getD (members.getD (argminIdx meanDist members.length) 0) ⟨[]⟩

/-- `generate_ensemble` from `app/pipeline/ensemble.py`. The agglomerative
clustering itself lives in scikit-learn, outside this repository; it enters
as the label assignment `labels`, constrained in the theorems by its
documented contract (every label < `n_clusters`, every cluster nonempty). -/
def generateEnsemble (sqrtK : K → K) (binder target : Struct K) (flex : List Pos)
    (nSamples nClusters : ℕ) (gN : ℕ → Vec3 K) (labels : ℕ → ℕ) (mag : K) :
    List (Struct K) :=
  let samples := mkSamples binder flex gN mag nSamples
  if samples.length ≤ nClusters then samples
  else
    (List.range (maxLabel labels samples.length + 1)).map
      (medoidOf sqrtK samples flex labels samples.length)

end Ensemble

section EnsembleTheorems

variable {K : Type} [LinearOrderedField K] [FloorRing K]

theorem mkSamplesAux_length (binder : Struct K) (flex : List Pos) (gN : ℕ → Vec3 K)
    (mag : K) : ∀ (n k : ℕ), (mkSamplesAux binder flex gN mag n k).length = n
  | 0, _ => rfl
  | n + 1, k => by
      simp only [mkSamplesAux, List.length_cons]
      rw [mkSamplesAux_length binder flex gN mag n]

theorem mkSamples_length (binder : Struct K) (flex : List Pos) (gN : ℕ → Vec3 K)
    (mag : K) (nSamples : ℕ) (h : 1 ≤ nSamples) :
    (mkSamples binder flex gN mag nSamples).length = nSamples := by
  simp only [mkSamples, List.length_cons, mkSamplesAux_length]
  omega

theorem le_foldr_max {x : ℕ} : ∀ {l : List ℕ}, x ∈ l → x ≤ l.foldr max 0 := by
  intro l
  induction l with
  | nil => intro h; cases h
  | cons a l ih =>
      intro h
      rcases List.mem_cons.mp h with rfl | h
      · exact le_max_left _ _
      · exact le_trans (ih h) (le_max_right _ _)

theorem foldr_max_le {m : ℕ} : ∀ {l : List ℕ}, (∀ x ∈ l, x ≤ m) → l.foldr max 0 ≤ m := by
  intro l
  induction l with
  | nil => intro _; exact Nat.zero_le m
  | cons a l ih =>
      intro h
      simp only [List.foldr_cons]
      exact max_le (h a (List.mem_cons_self a l)) (ih (fun x hx => h x (List.mem_cons_of_mem a hx)))

theorem maxLabel_eq (labels : ℕ → ℕ) (n k : ℕ) (hk : 1 ≤ k)
    (hub : ∀ i < n, labels i < k) (hex : ∃ i < n, labels i = k - 1) :
    maxLabel labels n = k - 1 := by
  unfold maxLabel
  apply le_antisymm
  · apply foldr_max_le
    intro x hx
    rcases List.mem_map.mp hx with ⟨i, hi, rfl⟩
    have := hub i (List.mem_range.mp hi)
    omega
  · obtain ⟨i, hi, hlab⟩ := hex
    have : labels i ∈ (List.range n).map labels :=
      List.mem_map.mpr ⟨i, List.mem_range.mpr hi, rfl⟩
    rw [hlab] at this
    exact le_foldr_max this

/-- **C3 (amended)**: for `n_samples ≥ 1`, and the scikit-learn labelling
contract in the clustered branch, `generate_ensemble` returns exactly
`min(n_samples, n_clusters)` states, and in the non-clustered branch
(`n_samples ≤ n_clusters`) the raw samples are returned with the
unperturbed original binder as state 0. -/
theorem c3_generateEnsemble_size (sqrtK : K → K) (binder target : Struct K)
    (flex : List Pos) (nSamples nClusters : ℕ) (gN : ℕ → Vec3 K) (labels : ℕ → ℕ)
    (mag : K) (h1 : 1 ≤ nSamples)
    (hlab : nClusters < nSamples → ∀ i < nSamples, labels i < nClusters)
    (hsurj : nClusters < nSamples → ∃ i < nSamples, labels i = nClusters - 1) :
    (generateEnsemble sqrtK binder target flex nSamples nClusters gN labels mag).length
        = min nSamples nClusters ∧
    (nSamples ≤ nClusters →
      generateEnsemble sqrtK binder target flex nSamples nClusters gN labels mag
          = mkSamples binder flex gN mag nSamples ∧
      (generateEnsemble sqrtK binder target flex nSamples nClusters gN labels mag).headD ⟨[]⟩
          = binder) := by
  have hlen := mkSamples_length binder flex gN mag nSamples h1
  by_cases hb : nSamples ≤ nClusters
  · have hcond : (mkSamples binder flex gN mag nSamples).length ≤ nClusters := by
      rw [hlen]; exact hb
    have hres : generateEnsemble sqrtK binder target flex nSamples nClusters gN labels mag
        = mkSamples binder flex gN mag nSamples := by
      unfold generateEnsemble
      rw [if_pos hcond]
    refine ⟨?_, fun _ => ⟨hres, ?_⟩⟩
    · rw [hres, hlen, min_eq_left hb]
    · rw [hres]; rfl
  · push_neg at hb
    have hk : 1 ≤ nClusters := by
      have := hlab hb 0 (by omega)
      omega
    have hcond : ¬ ((mkSamples binder flex gN mag nSamples).length ≤ nClusters) := by
      rw [hlen]; omega
    have hres : generateEnsemble sqrtK binder target flex nSamples nClusters gN labels mag
        = (List.range (maxLabel labels nSamples + 1)).map
            (medoidOf sqrtK (mkSamples binder flex gN mag nSamples) flex labels
              (mkSamples binder flex gN mag nSamples).length) := by
      unfold generateEnsemble
      rw [if_neg hcond, hlen]
    refine ⟨?_, fun hcontra => absurd hcontra (by omega)⟩
    rw [hres, List.length_map, List.length_range,
      maxLabel_eq labels nSamples nClusters hk (hlab hb) (hsurj hb)]
    omega

/-- **C3 counterexample**: at `n_samples = 0` (not `> n_clusters = 1`) the
code still returns one state — the claim's "exactly `n_samples` states
otherwise" fails. -/
theorem c3_counterexample :
    (generateEnsemble (K := ℝ) Real.sqrt ⟨[]⟩ ⟨[]⟩ [] 0 1
      (fun _ => ⟨0, 0, 0⟩) (fun _ => 0) (4 / 5)).length ≠ 0 := by
  unfold generateEnsemble mkSamples
  norm_num [mkSamplesAux]

/-- **C3 witness**: three samples clustered into two clusters (labels
0,1,0) give exactly two representatives; two samples with two clusters
requested give both samples back, original first. -/
theorem c3_witness :
    (1 ≤ 3 ∧
      (generateEnsemble (K := ℝ) Real.sqrt ⟨[]⟩ ⟨[]⟩ [] 3 2
        (fun _ => ⟨0, 0, 0⟩) (fun i => i % 2) (4 / 5)).length = min 3 2) ∧
    (1 ≤ 2 ∧
      (generateEnsemble (K := ℝ) Real.sqrt ⟨[]⟩ ⟨[]⟩ [] 2 5
        (fun _ => ⟨0, 0, 0⟩) (fun _ => 0) (4 / 5)).headD ⟨[]⟩ = ⟨[]⟩) :=
  ⟨⟨by norm_num,
    (c3_generateEnsemble_size Real.sqrt ⟨[]⟩ ⟨[]⟩ [] 3 2 (fun _ => ⟨0, 0, 0⟩)
      (fun i => i % 2) (4 / 5) (by norm_num)
      (fun _ => by decide) (fun _ => ⟨1, by norm_num⟩)).1⟩,
   ⟨by norm_num,
    ((c3_generateEnsemble_size Real.sqrt ⟨[]⟩ ⟨[]⟩ [] 2 5 (fun _ => ⟨0, 0, 0⟩)
      (fun _ => 0) (4 / 5) (by norm_num)
      (fun h => absurd h (by norm_num)) (fun h => absurd h (by norm_num))).2
      (by norm_num)).2⟩⟩

/-- **C9 (amended)**: `_rmsd_between` returns the 999.0 sentinel exactly on
unequal flexible-atom counts (or a zero count); with equal nonzero counts
the sentinel branch is not taken and the flexible-backbone RMSD
`sqrt(Σ‖δ‖²/n)` is returned. -/
theorem c9_rmsd_sentinel (sqrtK : K → K) (s1 s2 : Struct K) (flex : List Pos) :
    ((flexAtoms s1 flex).length ≠ (flexAtoms s2 flex).length →
      rmsdBetween sqrtK s1 s2 flex = 999) ∧
    ((flexAtoms s1 flex).length = (flexAtoms s2 flex).length →
      (flexAtoms s1 flex).length ≠ 0 →
      rmsdSentinelCond s1 s2 flex = false ∧
      rmsdBetween sqrtK s1 s2 flex =
        sqrtK ((((flexAtoms s1 flex).zip (flexAtoms s2 flex)).map
          (fun p => sqDist p.1 p.2)).sum / ((flexAtoms s1 flex).length : K))) := by
  constructor
  · intro hne
    unfold rmsdBetween
    rw [if_pos]
    unfold rmsdSentinelCond
    simp [hne]
  · intro heq hnz
    have hcond : rmsdSentinelCond s1 s2 flex = false := by
      unfold rmsdSentinelCond
      simp only [Bool.or_eq_false_iff, bne_eq_false_iff_eq, beq_eq_false_iff_ne]
      exact ⟨heq, hnz⟩
    refine ⟨hcond, ?_⟩
    unfold rmsdBetween
    rw [hcond]
    rfl

/-- **C9 witness**: equal one-atom topologies are scored by the RMSD
branch; the sentinel test is false. -/
theorem c9_witness :
    ((flexAtoms (K := ℝ) ⟨[⟨"A", [⟨1, "GLY", [⟨"CA", ⟨0, 0, 0⟩⟩]⟩]⟩]⟩ [("A", 1)]).length =
      (flexAtoms (K := ℝ) ⟨[⟨"A", [⟨1, "GLY", [⟨"CA", ⟨1, 0, 0⟩⟩]⟩]⟩]⟩ [("A", 1)]).length) ∧
    rmsdSentinelCond (K := ℝ) ⟨[⟨"A", [⟨1, "GLY", [⟨"CA", ⟨0, 0, 0⟩⟩]⟩]⟩]⟩
      ⟨[⟨"A", [⟨1, "GLY", [⟨"CA", ⟨1, 0, 0⟩⟩]⟩]⟩]⟩ [("A", 1)] = false ∧
    rmsdBetween Real.sqrt ⟨[⟨"A", [⟨1, "GLY", [⟨"CA", ⟨0, 0, 0⟩⟩]⟩]⟩]⟩
        ⟨[⟨"A", [⟨1, "GLY", [⟨"CA", ⟨1, 0, 0⟩⟩]⟩]⟩]⟩ [("A", 1)] =
      Real.sqrt ((((flexAtoms (K := ℝ) ⟨[⟨"A", [⟨1, "GLY", [⟨"CA", ⟨0, 0, 0⟩⟩]⟩]⟩]⟩
          [("A", 1)]).zip (flexAtoms (K := ℝ) ⟨[⟨"A", [⟨1, "GLY", [⟨"CA", ⟨1, 0, 0⟩⟩]⟩]⟩]⟩
          [("A", 1)])).map (fun p => sqDist p.1 p.2)).sum /
        ((flexAtoms (K := ℝ) ⟨[⟨"A", [⟨1, "GLY", [⟨"CA", ⟨0, 0, 0⟩⟩]⟩]⟩]⟩
          [("A", 1)]).length : ℝ)) := by
  have h := c9_rmsd_sentinel Real.sqrt
    ⟨[⟨"A", [⟨1, "GLY", [⟨"CA", ⟨0, 0, 0⟩⟩]⟩]⟩]⟩
    ⟨[⟨"A", [⟨1, "GLY", [⟨"CA", ⟨1, 0, 0⟩⟩]⟩]⟩]⟩ [("A", 1)]
  have h2 := h.2 (by rfl) (by decide)
  exact ⟨rfl, h2.1, h2.2⟩

/-- **C9 counterexample**: two structures with equal flexible-atom counts
(both zero) still hit the sentinel branch and return 999.0, so "the
sentinel branch is never taken for identical counts" fails as stated. -/
theorem c9_counterexample :
    ((flexAtoms (K := ℝ) ⟨[]⟩ []).length = (flexAtoms (K := ℝ) ⟨[]⟩ []).length) ∧
    rmsdSentinelCond (K := ℝ) ⟨[]⟩ ⟨[]⟩ [] = true ∧
    rmsdBetween Real.sqrt ⟨[]⟩ ⟨[]⟩ [] = 999 := by
  refine ⟨rfl, rfl, ?_⟩
  unfold rmsdBetween
  have hc : rmsdSentinelCond (K := ℝ) ⟨[]⟩ ⟨[]⟩ [] = true := rfl
  rw [if_pos hc]

end EnsembleTheorems

section Developability

variable {K : Type} [LinearOrderedField K] [FloorRing K]

/-- A 3×3 rotation matrix by rows. -/
structure Mat3 (K : Type) where
  r1 : Vec3 K
  r2 : Vec3 K
  r3 : Vec3 K
deriving DecidableEq, Repr

/-- Matrix-vector product. -/
def matVec (m : Mat3 K) (v : Vec3 K) : Vec3 K :=
  ⟨m.r1.x * v.x + m.r1.y * v.y + m.r1.z * v.z,
   m.r2.x * v.x + m.r2.y * v.y + m.r2.z * v.z,
   m.r3.x * v.x + m.r3.y * v.y + m.r3.z * v.z⟩

/-- `rot @ xyz + translation` applied to every atom of a deep copy. -/
def transformStruct (m : Mat3 K) (t : Vec3 K) (s : Struct K) : Struct K :=
  ⟨s.chains.map (fun ch => { ch with residues := ch.residues.map (fun r =>
    { r with atoms := r.atoms.map (fun a => { a with pos := vadd (matVec m a.pos) t }) }) })⟩

/-- Running maximum, starting at the loop's `max_score = 0.0`. -/
def listMax (l : List K) : K :=
  match l with
  | [] => 0
  | c :: cs => cs.foldl max c

/-- `_self_dock_risk` with the drawn orientations (random rotation matrix
and 20–40 Å translation per orientation) passed explicitly: each
orientation's transformed copy is scored against the original with
`contact_cutoff=10.0` and the running maximum (from 0.0) is rounded to 3
decimals. -/
def selfDockRisk (s : Struct K) (orients : List (Mat3 K × Vec3 K)) : K :=
  roundQ 3 (orients.foldl (fun m o =>
    max m (scoreInterface s (transformStruct o.1 o.2 s) 10 2 (5 / 2) (7 / 2)).composite) 0)

/-- `HYDROPHOBICITY.get(aa, 0)` (Kyte-Doolittle). -/
def hydrophobicityD (c : Char) : K :=
  match c with
  | 'I' => 9 / 2 | 'V' => 21 / 5 | 'L' => 19 / 5 | 'F' => 14 / 5 | 'C' => 5 / 2
  | 'M' => 19 / 10 | 'A' => 9 / 5 | 'G' => -2 / 5 | 'T' => -7 / 10 | 'S' => -4 / 5
  | 'W' => -9 / 10 | 'Y' => -13 / 10 | 'P' => -8 / 5 | 'H' => -16 / 5 | 'E' => -7 / 2
  | 'Q' => -7 / 2 | 'D' => -7 / 2 | 'N' => -7 / 2 | 'K' => -39 / 10 | 'R' => -9 / 2
  | _ => 0

/-- `BETA_PROPENSITY.get(aa, 1.0)` (Chou-Fasman). -/
def betaPropensityD (c : Char) : K :=
  match c with
  | 'V' => 17 / 10 | 'I' => 8 / 5 | 'Y' => 147 / 100 | 'F' => 69 / 50
  | 'W' => 137 / 100 | 'L' => 13 / 10 | 'T' => 119 / 100 | 'C' => 119 / 100
  | 'Q' => 11 / 10 | 'M' => 21 / 20 | 'R' => 93 / 100 | 'N' => 89 / 100
  | 'H' => 87 / 100 | 'A' => 83 / 100 | 'S' => 3 / 4 | 'G' => 3 / 4
  | 'K' => 37 / 50 | 'D' => 27 / 50 | 'P' => 11 / 20 | 'E' => 37 / 100
  | _ => 1

/-- `PKA_SIDE` (junk 0 outside the seven listed residues; the code only
reads listed keys). -/
def pkaSide (c : Char) : K :=
  match c with
  | 'D' => 73 / 20 | 'E' => 17 / 4 | 'C' => 409 / 50 | 'Y' => 1007 / 100
  | 'H' => 6 | 'K' => 1053 / 100 | 'R' => 312 / 25
  | _ => 0

/-- `_net_charge_at_ph`; `pow10 x` models the real `10 ** x`
(`fun x => (10 : ℝ) ^ x` via `rpow` in the faithful instantiation). -/
def netChargeAtPh (pow10 : K → K) (seq : List Char) (ph : K) : K :=
  seq.foldl (fun acc aa =>
    if aa = 'D' ∨ aa = 'E' ∨ aa = 'C' ∨ aa = 'Y' then
      acc - 1 / (1 + pow10 (pkaSide aa - ph))
    else if aa = 'H' ∨ aa = 'K' ∨ aa = 'R' then
      acc + 1 / (1 + pow10 (ph - pkaSide aa))
    else acc)
    (1 / (1 + pow10 (ph - 969 / 100)) - 1 / (1 + pow10 (117 / 50 - ph)))

/-- The bisection state of `_compute_pI` after `n` iterations. -/
def piBounds (pow10 : K → K) (seq : List Char) : ℕ → K × K
  | 0 => (0, 14)
  | n + 1 =>
      let lh := piBounds pow10 seq n
      let mid := (lh.1 + lh.2) / 2
      if 0 < netChargeAtPh pow10 seq mid then (mid, lh.2) else (lh.1, mid)

/-- `_compute_pI`: 100 bisection iterations, then the midpoint rounded to 2
decimals. -/
def computePI (pow10 : K → K) (seq : List Char) : K :=
  roundQ 2 (((piBounds pow10 seq 100).1 + (piBounds pow10 seq 100).2) / 2)

/-- `_hydrophobic_patch_score`. -/
def hydrophobicPatchScore (seq : List Char) : K :=
  if seq.length = 0 then 0
  else roundQ 3 ((seq.countP (fun aa => decide ((2 : K) < hydrophobicityD aa)) : K)
    / (seq.length : K))

/-- `_beta_propensity_score`. -/
def betaPropensityScore (seq : List Char) : K :=
  if seq.length = 0 then 0
  else roundQ 3 ((seq.map (betaPropensityD (K := K))).sum / (seq.length : K))

/-- `_extract_full_sequence` (nonstandard residue names are skipped). -/
def extractFullSequence (s : Struct K) : List Char :=
  s.chains.flatMap (fun ch => ch.residues.filterMap (fun r => threeToOne r.resname))

/-- `app.models.DevelopabilityBreakdown`. -/
structure DevelopabilityBreakdown (K : Type) where
  hydrophobic_patch : K
  net_charge : K
  pI : K
  beta_propensity : K
  self_dock_risk : K
  composite : K
  flag : String
deriving DecidableEq, Repr

/-- The five penalty terms of `compute_developability`. -/
def devPenalties (hp charge pi beta selfRisk : K) : K :=
  (if 3 / 10 < hp then (hp - 3 / 10) * 100 else 0)
    + (if charge < -2 ∨ 8 < charge then min |charge| 10 * (3 / 2) else 0)
    + (if pi < 5 ∨ 10 < pi then 10 else 0)
    + (if 6 / 5 < beta then (beta - 6 / 5) * 30 else 0)
    + (if 3 < selfRisk then (selfRisk - 3) * 5 else 0)

/-- The clamped, rounded composite of `compute_developability`. -/
def devComposite (hp charge pi beta selfRisk : K) : K :=
  roundQ 1 (max 0 (min 100 (100 - devPenalties hp charge pi beta selfRisk)))

/-- The PASS/WARN/FAIL flag. -/
def devFlag (composite : K) : String :=
  if 70 ≤ composite then "PASS" else if 40 ≤ composite then "WARN" else "FAIL"

/-- `compute_developability` from `app/pipeline/developability.py`, with
the real-exponential `10 ** ·` and the 4 random self-dock orientations
passed explicitly (both derive from the seed in the source). -/
def computeDevelopability (pow10 : K → K) (s : Struct K)
    (draws : ℕ → Mat3 K × Vec3 K) : DevelopabilityBreakdown K :=
  let seq := extractFullSequence s
  let hp := hydrophobicPatchScore seq
  let charge := roundQ 2 (netChargeAtPh pow10 seq (37 / 5))
  let pi := computePI pow10 seq
  let beta := betaPropensityScore seq
  let selfRisk := selfDockRisk s ((List.range 4).map draws)
  let composite := devComposite hp charge pi beta selfRisk
  { hydrophobic_patch := hp, net_charge := charge, pI := pi,
    beta_propensity := beta, self_dock_risk := selfRisk,
    composite := composite, flag := devFlag composite }

end Developability

section DevelopabilityTheorems

variable {K : Type} [LinearOrderedField K] [FloorRing K]

theorem devComposite_nonneg (hp charge pi beta selfRisk : K) :
    0 ≤ devComposite hp charge pi beta selfRisk := by
  unfold devComposite
  exact roundQ_nonneg 1 (le_max_left 0 _)

theorem devComposite_le_100 (hp charge pi beta selfRisk : K) :
    devComposite hp charge pi beta selfRisk ≤ 100 := by
  unfold devComposite
  have h : max 0 (min 100 (100 - devPenalties hp charge pi beta selfRisk))
      ≤ ((100 : ℤ) : K) := by
    push_cast
    exact max_le (by norm_num) (min_le_left _ _)
  have := roundQ_le_of_le 1 h
  calc roundQ 1 (max 0 (min 100 (100 - devPenalties hp charge pi beta selfRisk)))
      ≤ ((100 : ℤ) : K) := this
    _ = 100 := by push_cast; ring

theorem devFlag_spec (c : K) :
    (devFlag c = "PASS" ↔ 70 ≤ c) ∧
    (devFlag c = "WARN" ↔ 40 ≤ c ∧ c < 70) ∧
    (devFlag c = "FAIL" ↔ c < 40) := by
  unfold devFlag
  split_ifs with h1 h2
  · refine ⟨⟨fun _ => h1, fun _ => rfl⟩, ⟨fun h => absurd h (by decide), ?_⟩,
      ⟨fun h => absurd h (by decide), fun h => absurd h (by linarith)⟩⟩
    rintro ⟨-, hlt⟩
    exact absurd h1 (not_le.mpr hlt)
  · push_neg at h1
    refine ⟨⟨fun h => absurd h (by decide), fun h => absurd h1 (not_lt.mpr h)⟩,
      ⟨fun _ => ⟨h2, h1⟩, fun _ => rfl⟩,
      ⟨fun h => absurd h (by decide), fun h => absurd h (by linarith)⟩⟩
  · push_neg at h1 h2
    refine ⟨⟨fun h => absurd h (by decide), fun h => absurd h1 (not_lt.mpr h)⟩,
      ⟨fun h => absurd h (by decide), ?_⟩, ⟨fun _ => h2, fun _ => rfl⟩⟩
    rintro ⟨hge, -⟩
    exact absurd h2 (not_lt.mpr hge)

/-- **C6**: `compute_developability` always returns a composite clamped to
[0, 100] (after the 1-decimal rounding), and the flag is PASS exactly when
composite ≥ 70, WARN exactly when 40 ≤ composite < 70, FAIL exactly when
composite < 40. -/
theorem c6_developability_clamp_and_flag (pow10 : K → K) (s : Struct K)
    (draws : ℕ → Mat3 K × Vec3 K) :
    0 ≤ (computeDevelopability pow10 s draws).composite ∧
    (computeDevelopability pow10 s draws).composite ≤ 100 ∧
    ((computeDevelopability pow10 s draws).flag = "PASS" ↔
      70 ≤ (computeDevelopability pow10 s draws).composite) ∧
    ((computeDevelopability pow10 s draws).flag = "WARN" ↔
      (40 ≤ (computeDevelopability pow10 s draws).composite ∧
        (computeDevelopability pow10 s draws).composite < 70)) ∧
    ((computeDevelopability pow10 s draws).flag = "FAIL" ↔
      (computeDevelopability pow10 s draws).composite < 40) := by
  have hc : (computeDevelopability pow10 s draws).composite =
      devComposite (hydrophobicPatchScore (extractFullSequence s))
        (roundQ 2 (netChargeAtPh pow10 (extractFullSequence s) (37 / 5)))
        (computePI pow10 (extractFullSequence s))
        (betaPropensityScore (extractFullSequence s))
        (selfDockRisk s ((List.range 4).map draws)) := rfl
  have hflag : (computeDevelopability pow10 s draws).flag =
      devFlag ((computeDevelopability pow10 s draws).composite) := rfl
  obtain ⟨f1, f2, f3⟩ := devFlag_spec ((computeDevelopability pow10 s draws).composite)
  rw [hflag]
  exact ⟨hc ▸ devComposite_nonneg _ _ _ _ _, hc ▸ devComposite_le_100 _ _ _ _ _, f1, f2, f3⟩

theorem foldl_max_assoc (cs : List K) :
    ∀ (a c : K), cs.foldl max (max a c) = max a (cs.foldl max c) := by
  induction cs with
  | nil => intro a c; rfl
  | cons d cs ih =>
      intro a c
      show cs.foldl max (max (max a c) d) = max a (cs.foldl max (max c d))
      rw [max_assoc, ih]

theorem foldl_max_zero (l : List K) : l.foldl max 0 = max 0 (listMax l) := by
  match l with
  | [] => simp [listMax]
  | c :: cs =>
      show cs.foldl max (max 0 c) = max 0 (listMax (c :: cs))
      exact foldl_max_assoc cs 0 c

theorem foldl_max_map {α : Type} (f : α → K) (os : List α) :
    ∀ (a : K), os.foldl (fun m o => max m (f o)) a = (os.map f).foldl max a := by
  induction os with
  | nil => intro a; rfl
  | cons o os ih =>
      intro a
      simp only [List.map_cons, List.foldl_cons]
      exact ih _

/-- **C10**: the self-dock term of `compute_developability` equals the
maximum of 0.0 and the largest interface composite over the 4 drawn
orientations, each scored with `contact_cutoff = 10.0` — not the scorer's
default `8.0` used by the design and ensemble scoring paths — rounded to 3
decimals. -/
theorem c10_selfDockRisk_cutoff (pow10 : K → K) (s : Struct K)
    (draws : ℕ → Mat3 K × Vec3 K) :
    (computeDevelopability pow10 s draws).self_dock_risk =
      roundQ 3 (max 0 (listMax (((List.range 4).map draws).map (fun o =>
        (scoreInterface s (transformStruct o.1 o.2 s) 10 2 (5 / 2) (7 / 2)).composite)))) ∧
    ((List.range 4).map draws).length = 4 ∧
    (∀ t b : Struct K, scoreInterfaceDefault t b = scoreInterface t b 8 2 (5 / 2) (7 / 2)) ∧
    (10 : K) ≠ 8 := by
  refine ⟨?_, by simp, fun t b => rfl, by norm_num⟩
  have h1 : (computeDevelopability pow10 s draws).self_dock_risk =
      selfDockRisk s ((List.range 4).map draws) := rfl
  rw [h1]
  unfold selfDockRisk
  rw [foldl_max_map, foldl_max_zero]

end DevelopabilityTheorems

section Determinism

variable {K : Type} [LinearOrderedField K] [FloorRing K]

/-- **C7**: the three seeded routines are deterministic: their outputs
depend on the randomness only through the draw streams (which a fixed seed
fixes), so two runs whose streams agree pointwise produce equal outputs. -/
theorem c7_determinism (sqrtK : K → K) (binder target : Struct K) (flex : List Pos)
    (nSamples nClusters : ℕ) (labels : ℕ → ℕ) (mag : K)
    (ensemble : List (Struct K)) (designable : List Pos) (nCandidates beamWidth : ℕ)
    (fixed : List Pos) (allowed : Pos → Option (List String)) (noGlyc : Bool)
    (pow10 : K → K) (s : Struct K)
    (gN gN' : ℕ → Vec3 K) (gU gU' : ℕ → K) (gC gC' : ℕ → ℕ)
    (draws draws' : ℕ → Mat3 K × Vec3 K)
    (hN : ∀ n, gN n = gN' n) (hU : ∀ n, gU n = gU' n) (hC : ∀ n, gC n = gC' n)
    (hD : ∀ n, draws n = draws' n) :
    generateEnsemble sqrtK binder target flex nSamples nClusters gN labels mag =
      generateEnsemble sqrtK binder target flex nSamples nClusters gN' labels mag ∧
    designSequences target binder ensemble designable nCandidates beamWidth fixed
        allowed noGlyc gU gC =
      designSequences target binder ensemble designable nCandidates beamWidth fixed
        allowed noGlyc gU' gC' ∧
    computeDevelopability pow10 s draws = computeDevelopability pow10 s draws' := by
  have eN : gN = gN' := funext hN
  have eU : gU = gU' := funext hU
  have eC : gC = gC' := funext hC
  have eD : draws = draws' := funext hD
  subst eN eU eC eD
  exact ⟨rfl, rfl, rfl⟩

/-- **C7 witness**: the determinism statement instantiated at concrete
inputs and a shared stream. -/
theorem c7_witness :
    generateEnsemble (K := ℚ) id ⟨[]⟩ ⟨[]⟩ [] 1 1 (fun _ => ⟨0, 0, 0⟩) (fun _ => 0) 1 =
      generateEnsemble (K := ℚ) id ⟨[]⟩ ⟨[]⟩ [] 1 1 (fun _ => ⟨0, 0, 0⟩) (fun _ => 0) 1 ∧
    designSequences (K := ℚ) ⟨[]⟩ ⟨[]⟩ [] [] 1 1 [] (fun _ => none) true
        (fun _ => 0) (fun _ => 0) =
      designSequences (K := ℚ) ⟨[]⟩ ⟨[]⟩ [] [] 1 1 [] (fun _ => none) true
        (fun _ => 0) (fun _ => 0) ∧
    computeDevelopability (K := ℚ) (fun _ => 1) ⟨[]⟩ (fun _ => (⟨⟨1, 0, 0⟩, ⟨0, 1, 0⟩, ⟨0, 0, 1⟩⟩, ⟨0, 0, 0⟩)) =
      computeDevelopability (K := ℚ) (fun _ => 1) ⟨[]⟩ (fun _ => (⟨⟨1, 0, 0⟩, ⟨0, 1, 0⟩, ⟨0, 0, 1⟩⟩, ⟨0, 0, 0⟩)) :=
  c7_determinism id ⟨[]⟩ ⟨[]⟩ [] 1 1 (fun _ => 0) 1 [] [] 1 1 [] (fun _ => none) true
    (fun _ => 1) ⟨[]⟩ _ _ _ _ _ _ _ _
    (fun _ => rfl) (fun _ => rfl) (fun _ => rfl) (fun _ => rfl)

end Determinism
